import Mathlib

/-!
Verification of the kubeflake identifier generator.

Shallow embedding of the Go sources:
  - `internal/kubeflake/base.go`    : the base-62 / base-64 string codecs
  - `internal/kubeflake/settings.go`: `Settings` and `Settings.Validate`
  - `v1/kubeflake.go`               : the `Kubeflake` engine (`newWithSettings`,
    `toInternalTime`, `currentElapsedTime`, `sleep`, `NextID`, `toID`,
    `Compose`, `Decompose` and the part extractors)

Go machine integers are modelled as follows: `uint64` values are `ℕ`
together with explicit `% 2 ^ 64` wherever Go arithmetic can wrap
(shifts, increments, subtraction), `int`/`int64`/`time.Duration` values
are `ℤ` with explicit two's-complement wrapping (`wrap64`) where Go
multiplication or subtraction can overflow, `time.Time` values are their
`UnixNano()` integer, and Go's `/` and `%` on signed integers are
`Int.tdiv` / `Int.tmod` (truncation toward zero, as in Go).  Fallible Go
functions returning `(T, error)` become `Option` / `Except`.
-/

namespace Kubeflake

/-- Conversion `uint64(x)` of a Go signed integer `x` to `uint64`
(reduction modulo `2 ^ 64`). -/
def u64 (x : Int) : ℕ := (x % (2 ^ 64 : Int)).toNat

/-- Conversion `int64(n)` of a Go `uint64` value to a signed 64-bit value:
values at or above `2 ^ 63` become negative. -/
def i64 (n : ℕ) : Int := ((n : Int) + 2 ^ 63) % 2 ^ 64 - 2 ^ 63

/-- Two's-complement wrapping of an integer into the `int64` range, the
result of any overflowing Go `int64` arithmetic. -/
def wrap64 (x : Int) : Int := (x + 2 ^ 63) % 2 ^ 64 - 2 ^ 63

/-- Go `uint64` subtraction `a - b` (wraps modulo `2 ^ 64`), for
`a b < 2 ^ 64`. -/
def u64sub (a b : ℕ) : ℕ := (a + 2 ^ 64 - b) % 2 ^ 64

/-! ### The radix codecs (`internal/kubeflake/base.go`) -/

/-- `base62Chars`: digits, then uppercase, then lowercase. -/
def base62Chars : List Char :=
  "0123456789ABCDEFGHIJKLMNOPQRSTUVWXYZabcdefghijklmnopqrstuvwxyz".toList

/-- `base64Chars`: uppercase, lowercase, digits, then `+` and `/`. -/
def base64Chars : List Char :=
  "ABCDEFGHIJKLMNOPQRSTUVWXYZabcdefghijklmnopqrstuvwxyz0123456789+/".toList

/-- The division loop of `Base62Converter.Encode`: for `n > 0`, repeatedly
divide by 62 prepending the character for each remainder. -/
def base62EncodeLoop : ℕ → List Char
  | 0 => []
  | n + 1 => base62EncodeLoop ((n + 1) / 62) ++ [base62Chars.getD ((n + 1) % 62) ' ']
decreasing_by exact Nat.div_lt_self (Nat.succ_pos n) (by omega)

/-- `Base62Converter.Encode`: the zero special case returns `"0"`. -/
def base62Encode (n : ℕ) : List Char :=
  if n = 0 then ['0'] else base62EncodeLoop n

/-- The fold of `Base62Converter.Decode`: `result = result*62 + index`,
in `uint64` arithmetic; a character absent from the alphabet fails. -/
def base62DecodeLoop : List Char → ℕ → Option ℕ
  | [], acc => some acc
  | c :: rest, acc =>
    match base62Chars.findIdx? (fun x => x = c) with
    | none => none
    | some index => base62DecodeLoop rest ((acc * 62 + index) % 2 ^ 64)

/-- `Base62Converter.Decode`. -/
def base62Decode (s : List Char) : Option ℕ := base62DecodeLoop s 0

/-- The division loop of `Base64Converter.Encode`. -/
def base64EncodeLoop : ℕ → List Char
  | 0 => []
  | n + 1 => base64EncodeLoop ((n + 1) / 64) ++ [base64Chars.getD ((n + 1) % 64) ' ']
decreasing_by exact Nat.div_lt_self (Nat.succ_pos n) (by omega)

/-- `Base64Converter.Encode`: the zero special case returns the literal
string `"0"` (the same literal as the base-62 encoder). -/
def base64Encode (n : ℕ) : List Char :=
  if n = 0 then ['0'] else base64EncodeLoop n

/-- The fold of `Base64Converter.Decode`. -/
def base64DecodeLoop : List Char → ℕ → Option ℕ
  | [], acc => some acc
  | c :: rest, acc =>
    match base64Chars.findIdx? (fun x => x = c) with
    | none => none
    | some index => base64DecodeLoop rest ((acc * 64 + index) % 2 ^ 64)

/-- `Base64Converter.Decode`. -/
def base64Decode (s : List Char) : Option ℕ := base64DecodeLoop s 0

/-! ### Settings (`internal/kubeflake/settings.go`) -/

def MinTimeBits : Int := 30
def MinSequenceBits : Int := 8
def MaxSequenceBits : Int := 30
def MinClusterBits : Int := 2
def MaxClusterBits : Int := 8
def MaxMachineBits : Int := 16
def MinMachineBits : Int := 3

/-- `time.Millisecond` in nanoseconds. -/
def millisecondNs : Int := 1000000

/-- The `Settings` struct.  Bit widths are Go `int`, `TimeUnit` is a
`time.Duration` (an `int64` count of nanoseconds) and `EpochTime` is the
`UnixNano()` instant of the configured epoch.  The `Base` codec is
modelled by the standalone codec functions above, and the `ClusterId` /
`MachineId` provider functions are modelled as explicit `Option Int`
results passed to `newWithSettings`. -/
structure Settings where
  bitsSequence : Int
  bitsCluster : Int
  bitsMachine : Int
  timeUnit : Int
  epochTime : Int
deriving Repr, DecidableEq

/-- The distinct error values of `settings.go` that `Validate` can
return. -/
inductive SettingsError where
  | invalidBitsSequence
  | invalidBitsMachineID
  | invalidBitsClusterID
  | invalidTimeUnit
  | startTimeAhead
  | invalidBitsTime
deriving Repr, DecidableEq

/-- `Settings.Validate`, checking in source order; `now` is the
`UnixNano()` instant of the `time.Now()` call inside `Validate`
(`s.EpochTime.After(time.Now())` is `now < s.epochTime`).  Returns
`none` for a nil error. -/
def Settings.validate (s : Settings) (now : Int) : Option SettingsError :=
  if s.bitsSequence < MinSequenceBits ∨ MaxSequenceBits < s.bitsSequence then
    some .invalidBitsSequence
  else if s.bitsMachine < MinMachineBits ∨ MaxMachineBits < s.bitsMachine then
    some .invalidBitsMachineID
  else if s.bitsCluster < MinClusterBits ∨ MaxClusterBits < s.bitsCluster then
    some .invalidBitsClusterID
  else if s.timeUnit < 0 ∨ (0 < s.timeUnit ∧ s.timeUnit < millisecondNs) then
    some .invalidTimeUnit
  else if now < s.epochTime then
    some .startTimeAhead
  else if 64 - s.bitsCluster - s.bitsMachine - s.bitsSequence < MinTimeBits then
    some .invalidBitsTime
  else
    none

/-- `DefaultSettings()` (provider functions and codec modelled
separately): sequence 9 bits, cluster 3 bits, machine 13 bits, time unit
10 ms, epoch 2025-01-01 00:00:00 UTC (`UnixNano = 1735689600e9`). -/
def defaultSettings : Settings :=
  { bitsSequence := 9
    bitsCluster := 3
    bitsMachine := 13
    timeUnit := 10000000
    epochTime := 1735689600000000000 }

/-! ### The engine (`v1/kubeflake.go`) -/

/-- The `Kubeflake` struct.  `machineId` and `clusterId` are Go `int`;
`sequenceMask`, `startTime`, `elapsedTime` and `sequence` are `uint64`;
`timeUnit` is `int64` nanoseconds.  The bit-width fields are Go `int`
but every constructed engine stores the validated (hence non-negative)
widths, so they are carried as `ℕ`.  The mutex serializes `NextID`
calls and is modelled by treating each `nextID` step as atomic; the
injectable `nowFunc` clock becomes the explicit `now` arguments
(`UnixNano()` readings). -/
structure Engine where
  machineId : Int
  clusterId : Int
  bitsTime : ℕ
  bitsCluster : ℕ
  bitsMachine : ℕ
  bitsSequence : ℕ
  sequenceMask : ℕ
  timeUnit : Int
  startTime : ℕ
  elapsedTime : ℕ
  sequence : ℕ
deriving Repr, DecidableEq

/-- `toInternalTime`: `uint64(t.UTC().UnixNano() / kf.timeUnit)` —
truncated signed division, then conversion to `uint64`. -/
def toInternalTime (timeUnit : Int) (t : Int) : ℕ :=
  u64 (Int.tdiv t timeUnit)

/-- `newWithSettings`: validate, then populate the struct; the two
provider calls are the `clusterRes` / `machineRes` arguments (`none` is
a provider error, propagated as a construction failure).  The provider
results are stored with no range check.  `now` is the instant seen by
`Validate`. -/
def newWithSettings (s : Settings) (now : Int)
    (clusterRes machineRes : Option Int) : Option Engine :=
  if (s.validate now).isSome then none
  else
    match clusterRes, machineRes with
    | some cluster, some machine =>
      some
        { machineId := machine
          clusterId := cluster
          bitsTime := (64 - s.bitsCluster - s.bitsMachine - s.bitsSequence).toNat
          bitsCluster := s.bitsCluster.toNat
          bitsMachine := s.bitsMachine.toNat
          bitsSequence := s.bitsSequence.toNat
          sequenceMask := 2 ^ s.bitsSequence.toNat - 1
          timeUnit := s.timeUnit
          startTime := toInternalTime s.timeUnit s.epochTime
          elapsedTime := 0
          sequence := 0 }
    | _, _ => none

/-- `currentElapsedTime`: `toInternalTime(now) - startTime` in `uint64`
arithmetic (underflows when the clock reads before the epoch). -/
def Engine.currentElapsedTime (kf : Engine) (now : Int) : ℕ :=
  u64sub (toInternalTime kf.timeUnit now) kf.startTime

/-- `toID`: fails (with `errOverTimeLimit`, the only error `NextID` can
return, here `none`) when the elapsed tick reached `2 ^ bitsTime`;
otherwise ORs the four shifted fields.  Each Go shift happens in
`uint64` and so wraps modulo `2 ^ 64` on its own. -/
def Engine.toID (kf : Engine) : Option ℕ :=
  if 2 ^ kf.bitsTime ≤ kf.elapsedTime then none
  else
    some ((kf.elapsedTime <<< (kf.bitsSequence + kf.bitsCluster + kf.bitsMachine)) % 2 ^ 64 |||
          (kf.sequence <<< (kf.bitsMachine + kf.bitsCluster)) % 2 ^ 64 |||
          (u64 kf.clusterId <<< kf.bitsMachine) % 2 ^ 64 |||
          u64 kf.machineId)

/-- The state transition and result of one `NextID` call, given the
`UnixNano()` reading `now` of the single `currentElapsedTime` clock
access.  The blocking sleep does not touch the engine state and is
modelled separately by `Engine.nextIDSleep`. -/
def Engine.nextID (kf : Engine) (now : Int) : Engine × Option ℕ :=
  let current := kf.currentElapsedTime now
  let kf' :=
    if kf.elapsedTime < current then
      { kf with elapsedTime := current, sequence := 0 }
    else
      let s := (kf.sequence + 1) &&& kf.sequenceMask
      if s = 0 then
        { kf with sequence := s, elapsedTime := (kf.elapsedTime + 1) % 2 ^ 64 }
      else
        { kf with sequence := s }
  (kf', kf'.toID)

/-- The duration (ns) passed to `time.Sleep` by a `NextID` call, when the
sequence-wrap branch sleeps: `sleep(int64(overtime))` computes
`time.Duration(overtime*kf.timeUnit) - time.Duration(now₂ % kf.timeUnit)`
with a second clock reading `now₂`; `none` when no sleep happens. -/
def Engine.nextIDSleep (kf : Engine) (now now₂ : Int) : Option Int :=
  let current := kf.currentElapsedTime now
  if kf.elapsedTime < current then none
  else if (kf.sequence + 1) &&& kf.sequenceMask = 0 then
    let elapsed := (kf.elapsedTime + 1) % 2 ^ 64
    let overtime := i64 (u64sub elapsed current)
    some (wrap64 (wrap64 (overtime * kf.timeUnit) - Int.tmod now₂ kf.timeUnit))
  else none

/-- A run of sequential `NextID` calls: the list of per-call results and
the final engine state, for the given list of clock readings. -/
def Engine.nextIDs (kf : Engine) : List Int → List (Option ℕ) × Engine
  | [] => ([], kf)
  | t :: ts =>
    let p := kf.nextID t
    let q := p.1.nextIDs ts
    (p.2 :: q.1, q.2)

/-- The engine states after each call of a run. -/
def Engine.runStates (kf : Engine) : List Int → List Engine
  | [] => []
  | t :: ts => (kf.nextID t).1 :: (kf.nextID t).1.runStates ts

/-- The distinct error values `Compose` can return
(`ErrStartTimeAhead`, `errOverTimeLimit`, `errInvalidSequence`,
`errInvalidClusterID`, `errInvalidMachineID`). -/
inductive ComposeError where
  | startTimeAhead
  | overTimeLimit
  | invalidSequence
  | invalidClusterID
  | invalidMachineID
deriving Repr, DecidableEq

/-- `Compose(t, sequence, machineID, clusterId)`: validation checks in
source order, then the packing expression. -/
def Engine.compose (kf : Engine) (t sequence machineID clusterId : Int) :
    Except ComposeError ℕ :=
  let internalTime := toInternalTime kf.timeUnit t
  if internalTime < kf.startTime then .error .startTimeAhead
  else
    let elapsedTime := internalTime - kf.startTime
    if 2 ^ kf.bitsTime ≤ elapsedTime then .error .overTimeLimit
    else if sequence < 0 ∨ (2 : Int) ^ kf.bitsSequence ≤ sequence then
      .error .invalidSequence
    else if clusterId < 0 ∨ (2 : Int) ^ kf.bitsCluster ≤ clusterId then
      .error .invalidClusterID
    else if machineID < 0 ∨ (2 : Int) ^ kf.bitsMachine ≤ machineID then
      .error .invalidMachineID
    else
      .ok ((elapsedTime <<< (kf.bitsSequence + kf.bitsMachine + kf.bitsCluster)) % 2 ^ 64 |||
           (u64 sequence <<< (kf.bitsMachine + kf.bitsCluster)) % 2 ^ 64 |||
           (u64 clusterId <<< kf.bitsMachine) % 2 ^ 64 |||
           u64 machineID)

/-- `timePart`. -/
def Engine.timePart (kf : Engine) (id : ℕ) : ℕ :=
  id >>> (kf.bitsSequence + kf.bitsCluster + kf.bitsMachine)

/-- `sequencePart`. -/
def Engine.sequencePart (kf : Engine) (id : ℕ) : ℕ :=
  (id &&& ((1 <<< kf.bitsSequence - 1) <<< (kf.bitsMachine + kf.bitsCluster))) >>>
    (kf.bitsMachine + kf.bitsCluster)

/-- `clusterPart`. -/
def Engine.clusterPart (kf : Engine) (id : ℕ) : ℕ :=
  (id &&& ((1 <<< kf.bitsCluster - 1) <<< kf.bitsMachine)) >>> kf.bitsMachine

/-- `machinePart`. -/
def Engine.machinePart (kf : Engine) (id : ℕ) : ℕ :=
  id &&& (1 <<< kf.bitsMachine - 1)

/-- The `map[IdParts]uint64` with keys `timestamp`, `sequence`,
`machine_id`, `cluster_id` that `Decompose` returns. -/
structure DecomposedId where
  timestamp : ℕ
  sequence : ℕ
  machineId : ℕ
  clusterId : ℕ
deriving Repr, DecidableEq

/-- `Decompose`: total unmask-and-shift of the four fields. -/
def Engine.decompose (kf : Engine) (id : ℕ) : DecomposedId :=
  { timestamp := kf.timePart id
    sequence := kf.sequencePart id
    machineId := kf.machinePart id
    clusterId := kf.clusterPart id }

/-! ### Derived notions used by the specification statements -/

/-- The configuration part of an engine produced by a validated
construction whose providers returned in-range values: validated bit
widths, the derived time width, the sequence mask, in-range resolved
cluster/machine ids (spec §3: "each in [0, 2^bits)"), and a `uint64`
start time. -/
def ConfigWF (kf : Engine) : Prop :=
  8 ≤ kf.bitsSequence ∧ kf.bitsSequence ≤ 30 ∧
  3 ≤ kf.bitsMachine ∧ kf.bitsMachine ≤ 16 ∧
  2 ≤ kf.bitsCluster ∧ kf.bitsCluster ≤ 8 ∧
  kf.bitsTime = 64 - kf.bitsSequence - kf.bitsCluster - kf.bitsMachine ∧
  kf.sequenceMask = 2 ^ kf.bitsSequence - 1 ∧
  0 ≤ kf.clusterId ∧ kf.clusterId < (2 : Int) ^ kf.bitsCluster ∧
  0 ≤ kf.machineId ∧ kf.machineId < (2 : Int) ^ kf.bitsMachine ∧
  kf.startTime < 2 ^ 64

instance (kf : Engine) : Decidable (ConfigWF kf) := by
  unfold ConfigWF
  exact inferInstance

/-- Strict lexicographic order on the mutable (elapsed tick, sequence)
state of an engine. -/
def StateLt (a b : Engine) : Prop :=
  a.elapsedTime < b.elapsedTime ∨
    (a.elapsedTime = b.elapsedTime ∧ a.sequence < b.sequence)

/-- The packed id of the quadruple (elapsed tick `e`, sequence `s`,
cluster id, machine id) written as plain (overflow-free) arithmetic in
nested Horner form; equal to the engine's OR packing whenever all
fields are in range. -/
def idVal (kf : Engine) (e s : ℕ) : ℕ :=
  ((e * 2 ^ kf.bitsSequence + s) * 2 ^ kf.bitsCluster + kf.clusterId.toNat) *
      2 ^ kf.bitsMachine + kf.machineId.toNat

/-- The `NextID` state transition exactly as the specification words it:
if `current` is strictly greater than the stored elapsed tick, adopt it
and reset the sequence to 0; otherwise increment the sequence modulo
`2 ^ sequenceBits`, and if the increment wraps to 0 advance the stored
tick by exactly one. -/
def specNextState (kf : Engine) (current : ℕ) : Engine :=
  if kf.elapsedTime < current then
    { kf with elapsedTime := current, sequence := 0 }
  else if (kf.sequence + 1) % 2 ^ kf.bitsSequence = 0 then
    { kf with sequence := 0, elapsedTime := kf.elapsedTime + 1 }
  else
    { kf with sequence := (kf.sequence + 1) % 2 ^ kf.bitsSequence }

/-- The sleep the specification prescribes for the wrap case: the
remaining fraction of the current tick plus the full ticks of overtime
beyond the first (`overtime` being the advanced stored tick minus
`current`); `none` when the call does not sleep. -/
def specSleep (kf : Engine) (current : ℕ) (now₂ : Int) : Option Int :=
  if kf.elapsedTime < current then none
  else if (kf.sequence + 1) % 2 ^ kf.bitsSequence = 0 then
    some ((kf.timeUnit - now₂ % kf.timeUnit) +
      ((kf.elapsedTime : Int) + 1 - (current : Int) - 1) * kf.timeUnit)
  else none

/-- The id an engine state denotes according to the specification's
layout (§3): elapsed tick, sequence, cluster, machine, most significant
to least significant, in plain arithmetic. -/
def specPack (kf : Engine) : ℕ :=
  kf.elapsedTime * 2 ^ (kf.bitsSequence + kf.bitsCluster + kf.bitsMachine) +
    kf.sequence * 2 ^ (kf.bitsCluster + kf.bitsMachine) +
    kf.clusterId.toNat * 2 ^ kf.bitsMachine + kf.machineId.toNat

/-- `Validate` as the specification words it: each rule an inclusive
range, checked in the fixed order sequence, machine, cluster, time unit
(zero meaning "use default", or at least 1 ms), epoch not after `now`,
derived time width at least the floor; the first violated rule
determines the error. -/
def claimValidate (s : Settings) (now : Int) : Option SettingsError :=
  if ¬(8 ≤ s.bitsSequence ∧ s.bitsSequence ≤ 30) then
    some .invalidBitsSequence
  else if ¬(3 ≤ s.bitsMachine ∧ s.bitsMachine ≤ 16) then
    some .invalidBitsMachineID
  else if ¬(2 ≤ s.bitsCluster ∧ s.bitsCluster ≤ 8) then
    some .invalidBitsClusterID
  else if ¬(s.timeUnit = 0 ∨ 1000000 ≤ s.timeUnit) then
    some .invalidTimeUnit
  else if ¬(s.epochTime ≤ now) then
    some .startTimeAhead
  else if ¬(30 ≤ 64 - s.bitsSequence - s.bitsMachine - s.bitsCluster) then
    some .invalidBitsTime
  else
    none

/-! ### Concrete instances used in counterexamples and witnesses -/

/-- Valid settings: default bit widths, 1 ms time unit, epoch at
`UnixNano = 1000000` (1 ms after the Unix epoch, so internal start
tick 1). -/
def cexSettings : Settings :=
  { bitsSequence := 9
    bitsCluster := 3
    bitsMachine := 13
    timeUnit := 1000000
    epochTime := 1000000 }

/-- The engine `newWithSettings` builds from `cexSettings` with both
providers returning 0. -/
def cexEngine : Engine :=
  { machineId := 0
    clusterId := 0
    bitsTime := 39
    bitsCluster := 3
    bitsMachine := 13
    bitsSequence := 9
    sequenceMask := 511
    timeUnit := 1000000
    startTime := 1
    elapsedTime := 0
    sequence := 0 }

/-- A strictly increasing nanosecond clock starting at 0 (one reading
per call), i.e. a monotonically advancing injected clock that reads
before the configured epoch of `cexSettings`. -/
def cexClock (n : ℕ) : List Int := (List.range n).map Int.ofNat

/-- A clock for well-behaved runs: readings after the epoch of
`cexSettings`. -/
def demoClock : List Int := [2000000, 2000001, 3000000]

/-- `cexEngine` in a state whose elapsed tick has just reached the
`2 ^ 39` limit. -/
def overEngine : Engine := { cexEngine with elapsedTime := 549755813888 }

/-- `defaultSettings` with the zero ("use default") time unit. -/
def zeroUnitSettings : Settings := { defaultSettings with timeUnit := 0 }

/-- The engine `newWithSettings` builds from `zeroUnitSettings`: the
zero time unit is stored verbatim (and `startTime` came out of the
division by that zero). -/
def zeroUnitEngine : Engine :=
  { machineId := 0
    clusterId := 0
    bitsTime := 39
    bitsCluster := 3
    bitsMachine := 13
    bitsSequence := 9
    sequenceMask := 511
    timeUnit := 0
    startTime := 0
    elapsedTime := 0
    sequence := 0 }

/-- The state `cexEngine` reaches after 512 calls under the
before-the-epoch clock: stored tick `2 ^ 64 - 1`, sequence 511. -/
def wrapEngine : Engine :=
  { cexEngine with elapsedTime := 18446744073709551615, sequence := 511 }

/-- The engine `newWithSettings` builds from `defaultSettings` when the
machine-id provider returns the out-of-range value `8192 = 2 ^ 13`. -/
def overlapEngine : Engine :=
  { machineId := 8192
    clusterId := 0
    bitsTime := 39
    bitsCluster := 3
    bitsMachine := 13
    bitsSequence := 9
    sequenceMask := 511
    timeUnit := 10000000
    startTime := 173568960000
    elapsedTime := 0
    sequence := 0 }

/-- The engine of the spec's §8 scenario: sequence 9 bits (the default
widths), cluster id 2, machine id 5, 1 ms time unit, epoch at the Unix
epoch (internal start tick 0). -/
def demoEngine : Engine :=
  { machineId := 5
    clusterId := 2
    bitsTime := 39
    bitsCluster := 3
    bitsMachine := 13
    bitsSequence := 9
    sequenceMask := 511
    timeUnit := 1000000
    startTime := 0
    elapsedTime := 0
    sequence := 0 }

/-! ### Machine-integer lemmas -/

theorem u64_lt (x : Int) : u64 x < 2 ^ 64 := by
  have h1 : (0 : Int) ≤ x % 2 ^ 64 := Int.emod_nonneg x (by norm_num)
  have h2 : x % 2 ^ 64 < 2 ^ 64 := Int.emod_lt_of_pos x (by norm_num)
  unfold u64
  omega

theorem u64_eq_toNat {x : Int} (h0 : 0 ≤ x) (h : x < 2 ^ 64) : u64 x = x.toNat := by
  unfold u64
  rw [Int.emod_eq_of_lt h0 h]

theorem toNat_lt_pow {x : Int} {n : ℕ} (h : x < (2 : Int) ^ n) : x.toNat < 2 ^ n := by
  rcases le_or_lt 0 x with h0 | h0
  · rw [Int.toNat_lt h0]
    exact_mod_cast h
  · rw [Int.toNat_of_nonpos (le_of_lt h0)]
    exact pow_pos (by norm_num) n

theorem u64sub_lt (a b : ℕ) : u64sub a b < 2 ^ 64 :=
  Nat.mod_lt _ (by norm_num)

theorem u64sub_eq {a b : ℕ} (hba : b ≤ a) (h : a - b < 2 ^ 64) : u64sub a b = a - b := by
  unfold u64sub
  omega

theorem i64_eq {n : ℕ} (h : n < 2 ^ 63) : i64 n = n := by
  have h1 : (0 : Int) ≤ (n : Int) + 2 ^ 63 := by positivity
  have h2 : (n : Int) + 2 ^ 63 < 2 ^ 64 := by
    have : (n : Int) < 2 ^ 63 := by exact_mod_cast h
    omega
  unfold i64
  rw [Int.emod_eq_of_lt h1 h2]
  omega

theorem wrap64_eq {x : Int} (h1 : -(2 ^ 63) ≤ x) (h2 : x < 2 ^ 63) : wrap64 x = x := by
  unfold wrap64
  rw [Int.emod_eq_of_lt (by omega) (by omega)]
  omega

/-! ### Bit-packing lemmas -/

theorem shiftLeft_or_of_lt {a b k : ℕ} (hb : b < 2 ^ k) : a <<< k ||| b = a * 2 ^ k + b := by
  calc a <<< k ||| b = 2 ^ k * a ||| b := by rw [Nat.shiftLeft_eq, Nat.mul_comm]
    _ = 2 ^ k * a + b := (Nat.mul_add_lt_is_or hb a).symm
    _ = a * 2 ^ k + b := by ring

theorem mul_add_lt {a b c d : ℕ} (ha : a < c) (hb : b < d) : a * d + b < c * d := by
  calc a * d + b < a * d + d := by omega
    _ = (a + 1) * d := by ring
    _ ≤ c * d := Nat.mul_le_mul_right d ha

theorem and_mask_shift (v k s : ℕ) :
    (v &&& ((2 ^ s - 1) <<< k)) >>> k = (v >>> k) % 2 ^ s := by
  apply Nat.eq_of_testBit_eq
  intro i
  simp only [Nat.testBit_shiftRight, Nat.testBit_and, Nat.testBit_shiftLeft,
    Nat.testBit_two_pow_sub_one, Nat.testBit_mod_two_pow]
  have h2 : k + i - k = i := by omega
  simp [h2, Bool.and_comm]

theorem machinePart_eq (kf : Engine) (id : ℕ) :
    kf.machinePart id = id % 2 ^ kf.bitsMachine := by
  unfold Engine.machinePart
  rw [Nat.one_shiftLeft, Nat.and_pow_two_sub_one_eq_mod]

theorem clusterPart_eq (kf : Engine) (id : ℕ) :
    kf.clusterPart id = (id >>> kf.bitsMachine) % 2 ^ kf.bitsCluster := by
  unfold Engine.clusterPart
  rw [Nat.one_shiftLeft, and_mask_shift]

theorem sequencePart_eq (kf : Engine) (id : ℕ) :
    kf.sequencePart id =
      (id >>> (kf.bitsMachine + kf.bitsCluster)) % 2 ^ kf.bitsSequence := by
  unfold Engine.sequencePart
  rw [Nat.one_shiftLeft, and_mask_shift]

/-- Unpacking `idVal`: `Decompose` recovers the four fields from the
packed value of any in-range quadruple. -/
theorem decompose_idVal (kf : Engine) (e s : ℕ) (hwf : ConfigWF kf)
    (hs : s < 2 ^ kf.bitsSequence) :
    kf.decompose (idVal kf e s) =
      ⟨e, s, kf.machineId.toNat, kf.clusterId.toNat⟩ := by
  obtain ⟨hS1, hS2, hM1, hM2, hC1, hC2, hT, hmask, hcl0, hclB, hmc0, hmcB, hst⟩ := hwf
  have hclN : kf.clusterId.toNat < 2 ^ kf.bitsCluster := toNat_lt_pow hclB
  have hmcN : kf.machineId.toNat < 2 ^ kf.bitsMachine := toNat_lt_pow hmcB
  have hMpos : 0 < (2 : ℕ) ^ kf.bitsMachine := pow_pos (by norm_num) _
  have hMCpos : 0 < (2 : ℕ) ^ (kf.bitsMachine + kf.bitsCluster) := pow_pos (by norm_num) _
  have hSCMpos : 0 < (2 : ℕ) ^ (kf.bitsSequence + kf.bitsCluster + kf.bitsMachine) :=
    pow_pos (by norm_num) _
  unfold Engine.decompose
  have hmach : kf.machinePart (idVal kf e s) = kf.machineId.toNat := by
    rw [machinePart_eq]
    unfold idVal
    rw [Nat.mul_comm _ (2 ^ kf.bitsMachine), Nat.mul_add_mod,
      Nat.mod_eq_of_lt hmcN]
  have hclu : kf.clusterPart (idVal kf e s) = kf.clusterId.toNat := by
    rw [clusterPart_eq, Nat.shiftRight_eq_div_pow]
    unfold idVal
    rw [Nat.mul_comm _ (2 ^ kf.bitsMachine), Nat.mul_add_div hMpos,
      Nat.div_eq_of_lt hmcN, Nat.add_zero,
      Nat.mul_comm _ (2 ^ kf.bitsCluster), Nat.mul_add_mod,
      Nat.mod_eq_of_lt hclN]
  have hseq : kf.sequencePart (idVal kf e s) = s := by
    rw [sequencePart_eq, Nat.shiftRight_eq_div_pow]
    have heq : idVal kf e s =
        2 ^ (kf.bitsMachine + kf.bitsCluster) * (e * 2 ^ kf.bitsSequence + s) +
          (kf.clusterId.toNat * 2 ^ kf.bitsMachine + kf.machineId.toNat) := by
      unfold idVal
      rw [pow_add]
      ring
    have htail : kf.clusterId.toNat * 2 ^ kf.bitsMachine + kf.machineId.toNat <
        2 ^ (kf.bitsMachine + kf.bitsCluster) := by
      have := mul_add_lt hclN hmcN
      calc kf.clusterId.toNat * 2 ^ kf.bitsMachine + kf.machineId.toNat
          < 2 ^ kf.bitsCluster * 2 ^ kf.bitsMachine := this
        _ = 2 ^ (kf.bitsMachine + kf.bitsCluster) := by rw [pow_add]; ring
    rw [heq, Nat.mul_add_div hMCpos, Nat.div_eq_of_lt htail, Nat.add_zero,
      Nat.mul_comm _ (2 ^ kf.bitsSequence), Nat.mul_add_mod,
      Nat.mod_eq_of_lt hs]
  have htim : kf.timePart (idVal kf e s) = e := by
    unfold Engine.timePart
    rw [Nat.shiftRight_eq_div_pow]
    have heq : idVal kf e s =
        2 ^ (kf.bitsSequence + kf.bitsCluster + kf.bitsMachine) * e +
          (s * 2 ^ (kf.bitsMachine + kf.bitsCluster) +
            (kf.clusterId.toNat * 2 ^ kf.bitsMachine + kf.machineId.toNat)) := by
      unfold idVal
      rw [pow_add, pow_add, pow_add]
      ring
    have hinner : kf.clusterId.toNat * 2 ^ kf.bitsMachine + kf.machineId.toNat <
        2 ^ (kf.bitsMachine + kf.bitsCluster) := by
      have := mul_add_lt hclN hmcN
      calc kf.clusterId.toNat * 2 ^ kf.bitsMachine + kf.machineId.toNat
          < 2 ^ kf.bitsCluster * 2 ^ kf.bitsMachine := this
        _ = 2 ^ (kf.bitsMachine + kf.bitsCluster) := by rw [pow_add]; ring
    have htail : s * 2 ^ (kf.bitsMachine + kf.bitsCluster) +
        (kf.clusterId.toNat * 2 ^ kf.bitsMachine + kf.machineId.toNat) <
        2 ^ (kf.bitsSequence + kf.bitsCluster + kf.bitsMachine) := by
      have := mul_add_lt hs hinner
      calc s * 2 ^ (kf.bitsMachine + kf.bitsCluster) +
          (kf.clusterId.toNat * 2 ^ kf.bitsMachine + kf.machineId.toNat)
          < 2 ^ kf.bitsSequence * 2 ^ (kf.bitsMachine + kf.bitsCluster) := this
        _ = 2 ^ (kf.bitsSequence + kf.bitsCluster + kf.bitsMachine) := by
            rw [pow_add, pow_add, pow_add]
            ring
    rw [heq, Nat.mul_add_div hSCMpos, Nat.div_eq_of_lt htail, Nat.add_zero]
  rw [hmach, hclu, hseq, htim]

/-- `toID` on an in-range state succeeds and produces exactly the packed
value `idVal`. -/
theorem toID_of_lt (kf : Engine) (hwf : ConfigWF kf)
    (hs : kf.sequence < 2 ^ kf.bitsSequence) (he : kf.elapsedTime < 2 ^ kf.bitsTime) :
    kf.toID = some (idVal kf kf.elapsedTime kf.sequence) := by
  obtain ⟨hS1, hS2, hM1, hM2, hC1, hC2, hT, hmask, hcl0, hclB, hmc0, hmcB, hst⟩ := hwf
  have hsum : kf.bitsTime + (kf.bitsSequence + kf.bitsCluster + kf.bitsMachine) = 64 := by
    omega
  have hclN : kf.clusterId.toNat < 2 ^ kf.bitsCluster := toNat_lt_pow hclB
  have hmcN : kf.machineId.toNat < 2 ^ kf.bitsMachine := toNat_lt_pow hmcB
  have hcl64 : u64 kf.clusterId = kf.clusterId.toNat :=
    u64_eq_toNat hcl0 (lt_of_lt_of_le hclB
      (pow_le_pow_right₀ (by norm_num) (by omega)))
  have hmc64 : u64 kf.machineId = kf.machineId.toNat :=
    u64_eq_toNat hmc0 (lt_of_lt_of_le hmcB
      (pow_le_pow_right₀ (by norm_num) (by omega)))
  have hA : kf.elapsedTime <<< (kf.bitsSequence + kf.bitsCluster + kf.bitsMachine) <
      2 ^ 64 := by
    rw [Nat.shiftLeft_eq]
    calc kf.elapsedTime * 2 ^ (kf.bitsSequence + kf.bitsCluster + kf.bitsMachine)
        < 2 ^ kf.bitsTime * 2 ^ (kf.bitsSequence + kf.bitsCluster + kf.bitsMachine) :=
          (Nat.mul_lt_mul_right (pow_pos (by norm_num) _)).mpr he
      _ = 2 ^ 64 := by rw [← pow_add, hsum]
  have hB : kf.sequence <<< (kf.bitsMachine + kf.bitsCluster) < 2 ^ 64 := by
    rw [Nat.shiftLeft_eq]
    calc kf.sequence * 2 ^ (kf.bitsMachine + kf.bitsCluster)
        < 2 ^ kf.bitsSequence * 2 ^ (kf.bitsMachine + kf.bitsCluster) :=
          (Nat.mul_lt_mul_right (pow_pos (by norm_num) _)).mpr hs
      _ = 2 ^ (kf.bitsSequence + (kf.bitsMachine + kf.bitsCluster)) := by rw [← pow_add]
      _ ≤ 2 ^ 64 := Nat.pow_le_pow_right (by norm_num) (by omega)
  have hCv : u64 kf.clusterId <<< kf.bitsMachine < 2 ^ 64 := by
    rw [Nat.shiftLeft_eq, hcl64]
    calc kf.clusterId.toNat * 2 ^ kf.bitsMachine
        < 2 ^ kf.bitsCluster * 2 ^ kf.bitsMachine :=
          (Nat.mul_lt_mul_right (pow_pos (by norm_num) _)).mpr hclN
      _ = 2 ^ (kf.bitsCluster + kf.bitsMachine) := by rw [← pow_add]
      _ ≤ 2 ^ 64 := Nat.pow_le_pow_right (by norm_num) (by omega)
  have hinner : kf.clusterId.toNat * 2 ^ kf.bitsMachine + kf.machineId.toNat <
      2 ^ (kf.bitsMachine + kf.bitsCluster) := by
    calc kf.clusterId.toNat * 2 ^ kf.bitsMachine + kf.machineId.toNat
        < 2 ^ kf.bitsCluster * 2 ^ kf.bitsMachine := mul_add_lt hclN hmcN
      _ = 2 ^ (kf.bitsMachine + kf.bitsCluster) := by rw [← pow_add, Nat.add_comm]
  have hmid : kf.sequence * 2 ^ (kf.bitsMachine + kf.bitsCluster) +
      (kf.clusterId.toNat * 2 ^ kf.bitsMachine + kf.machineId.toNat) <
      2 ^ (kf.bitsSequence + kf.bitsCluster + kf.bitsMachine) := by
    calc kf.sequence * 2 ^ (kf.bitsMachine + kf.bitsCluster) +
        (kf.clusterId.toNat * 2 ^ kf.bitsMachine + kf.machineId.toNat)
        < 2 ^ kf.bitsSequence * 2 ^ (kf.bitsMachine + kf.bitsCluster) :=
          mul_add_lt hs hinner
      _ = 2 ^ (kf.bitsSequence + kf.bitsCluster + kf.bitsMachine) := by
          rw [← pow_add]
          ring_nf
  unfold Engine.toID
  rw [if_neg (by omega)]
  congr 1
  rw [Nat.mod_eq_of_lt hA, Nat.mod_eq_of_lt hB, Nat.mod_eq_of_lt hCv,
    Nat.lor_assoc, Nat.lor_assoc, hcl64, hmc64,
    shiftLeft_or_of_lt hmcN, shiftLeft_or_of_lt hinner, shiftLeft_or_of_lt hmid]
  unfold idVal
  rw [pow_add, pow_add]
  ring

/-- The specification's flat packing formula agrees with the nested
Horner form `idVal` on the engine's own state. -/
theorem specPack_eq_idVal (kf : Engine) :
    specPack kf = idVal kf kf.elapsedTime kf.sequence := by
  unfold specPack idVal
  rw [pow_add, pow_add]
  ring

/-! ### Single-step lemmas about `NextID` -/

theorem nextID_fst (kf : Engine) (t : Int) :
    (kf.nextID t).1 =
      if kf.elapsedTime < kf.currentElapsedTime t then
        { kf with elapsedTime := kf.currentElapsedTime t, sequence := 0 }
      else if (kf.sequence + 1) &&& kf.sequenceMask = 0 then
        { kf with sequence := (kf.sequence + 1) &&& kf.sequenceMask,
                  elapsedTime := (kf.elapsedTime + 1) % 2 ^ 64 }
      else
        { kf with sequence := (kf.sequence + 1) &&& kf.sequenceMask } := rfl

theorem nextID_snd (kf : Engine) (t : Int) :
    (kf.nextID t).2 = ((kf.nextID t).1).toID := rfl

/-- One `NextID` call mutates only `elapsedTime` and `sequence`. -/
theorem nextID_config (kf : Engine) (t : Int) :
    ((kf.nextID t).1).machineId = kf.machineId ∧
    ((kf.nextID t).1).clusterId = kf.clusterId ∧
    ((kf.nextID t).1).bitsTime = kf.bitsTime ∧
    ((kf.nextID t).1).bitsCluster = kf.bitsCluster ∧
    ((kf.nextID t).1).bitsMachine = kf.bitsMachine ∧
    ((kf.nextID t).1).bitsSequence = kf.bitsSequence ∧
    ((kf.nextID t).1).sequenceMask = kf.sequenceMask ∧
    ((kf.nextID t).1).timeUnit = kf.timeUnit ∧
    ((kf.nextID t).1).startTime = kf.startTime := by
  rw [nextID_fst]
  split_ifs <;> exact ⟨rfl, rfl, rfl, rfl, rfl, rfl, rfl, rfl, rfl⟩

theorem nextID_configWF (kf : Engine) (t : Int) (hwf : ConfigWF kf) :
    ConfigWF ((kf.nextID t).1) := by
  obtain ⟨h1, h2, h3, h4, h5, h6, h7, h8, h9⟩ := nextID_config kf t
  unfold ConfigWF at hwf ⊢
  rw [h1, h2, h3, h4, h5, h6, h7, h9]
  exact hwf

theorem nextID_currentElapsed (kf : Engine) (t t' : Int) :
    ((kf.nextID t).1).currentElapsedTime t' = kf.currentElapsedTime t' := by
  obtain ⟨-, -, -, -, -, -, -, h8, h9⟩ := nextID_config kf t
  unfold Engine.currentElapsedTime
  rw [h8, h9]

theorem nextID_idVal (kf : Engine) (t : Int) (e s : ℕ) :
    idVal ((kf.nextID t).1) e s = idVal kf e s := by
  obtain ⟨h1, h2, -, h4, h5, h6, -, -, -⟩ := nextID_config kf t
  unfold idVal
  rw [h1, h2, h4, h5, h6]

theorem nextID_sequence_le (kf : Engine) (t : Int) :
    ((kf.nextID t).1).sequence ≤ kf.sequenceMask := by
  rw [nextID_fst]
  split_ifs <;> simp [Nat.and_le_right]

theorem nextID_elapsed_lt (kf : Engine) (t : Int) :
    ((kf.nextID t).1).elapsedTime < 2 ^ 64 ∨
      ((kf.nextID t).1).elapsedTime = kf.elapsedTime := by
  rw [nextID_fst]
  split_ifs
  · exact Or.inl (u64sub_lt _ _)
  · exact Or.inl (Nat.mod_lt _ (by norm_num))
  · exact Or.inr rfl

theorem nextID_elapsed_ge (kf : Engine) (t : Int)
    (h : kf.elapsedTime + 1 < 2 ^ 64) :
    kf.elapsedTime ≤ ((kf.nextID t).1).elapsedTime := by
  rw [nextID_fst]
  split_ifs with h1 h2
  · exact Nat.le_of_lt h1
  · simp only
    rw [Nat.mod_eq_of_lt h]
    omega
  · exact Nat.le_refl _

theorem nextID_elapsed_le (kf : Engine) (t : Int) :
    ((kf.nextID t).1).elapsedTime ≤
      max (kf.elapsedTime + 1) (kf.currentElapsedTime t) := by
  rw [nextID_fst]
  split_ifs
  · exact le_max_right _ _
  · exact le_trans (Nat.mod_le _ _) (le_max_left _ _)
  · exact le_trans (Nat.le_succ _) (le_max_left _ _)

/-- Each `NextID` call strictly increases the (elapsed tick, sequence)
state lexicographically, as long as the tick cannot wrap `2 ^ 64`. -/
theorem nextID_stateLt (kf : Engine) (t : Int)
    (hmask : kf.sequenceMask = 2 ^ kf.bitsSequence - 1)
    (hs : kf.sequence ≤ kf.sequenceMask)
    (he : kf.elapsedTime + 1 < 2 ^ 64) :
    StateLt kf ((kf.nextID t).1) := by
  have hSpos : 0 < 2 ^ kf.bitsSequence := pow_pos (by norm_num) _
  rw [nextID_fst]
  split_ifs with h1 h2
  · exact Or.inl h1
  · refine Or.inl ?_
    simp only
    rw [Nat.mod_eq_of_lt he]
    omega
  · refine Or.inr ⟨rfl, ?_⟩
    simp only
    rw [hmask, Nat.and_pow_two_sub_one_eq_mod] at h2 ⊢
    rw [hmask] at hs
    rcases Nat.lt_or_ge (kf.sequence + 1) (2 ^ kf.bitsSequence) with hlt | hge
    · rw [Nat.mod_eq_of_lt hlt]
      omega
    · have : kf.sequence + 1 = 2 ^ kf.bitsSequence := by omega
      rw [this, Nat.mod_self] at h2
      omega

/-- `idVal` is strictly monotone in the lexicographic state order when
the smaller state's sequence field is in range. -/
theorem idVal_lt_idVal (kf : Engine) {e s e' s' : ℕ}
    (hs : s < 2 ^ kf.bitsSequence)
    (h : e < e' ∨ (e = e' ∧ s < s')) :
    idVal kf e s < idVal kf e' s' := by
  have h1 : e * 2 ^ kf.bitsSequence + s < e' * 2 ^ kf.bitsSequence + s' := by
    rcases h with h | ⟨rfl, h⟩
    · calc e * 2 ^ kf.bitsSequence + s
          < e * 2 ^ kf.bitsSequence + 2 ^ kf.bitsSequence := by omega
        _ = (e + 1) * 2 ^ kf.bitsSequence := by ring
        _ ≤ e' * 2 ^ kf.bitsSequence := Nat.mul_le_mul_right _ h
        _ ≤ e' * 2 ^ kf.bitsSequence + s' := Nat.le_add_right _ _
    · omega
  unfold idVal
  have h2 : (e * 2 ^ kf.bitsSequence + s) * 2 ^ kf.bitsCluster + kf.clusterId.toNat <
      (e' * 2 ^ kf.bitsSequence + s') * 2 ^ kf.bitsCluster + kf.clusterId.toNat := by
    have := (Nat.mul_lt_mul_right (pow_pos (show 0 < 2 by norm_num) kf.bitsCluster)).mpr h1
    omega
  have h3 := (Nat.mul_lt_mul_right (pow_pos (show 0 < 2 by norm_num) kf.bitsMachine)).mpr h2
  omega

theorem toID_isSome_iff (kf : Engine) :
    (kf.toID).isSome ↔ kf.elapsedTime < 2 ^ kf.bitsTime := by
  unfold Engine.toID
  split_ifs with h
  · simp
    omega
  · simp
    omega

theorem toID_none_iff (kf : Engine) :
    kf.toID = none ↔ 2 ^ kf.bitsTime ≤ kf.elapsedTime := by
  unfold Engine.toID
  split_ifs with h
  · simp [h]
  · simp
    omega

/-! ### Run-level lemmas -/

theorem nextIDs_cons (kf : Engine) (t : Int) (ts : List Int) :
    (kf.nextIDs (t :: ts)).1 =
      (kf.nextID t).2 :: (((kf.nextID t).1).nextIDs ts).1 := rfl

theorem nextIDs_length : ∀ (ts : List Int) (kf : Engine),
    ((kf.nextIDs ts).1).length = ts.length
  | [], _ => rfl
  | t :: ts, kf => by
    simp [nextIDs_cons, nextIDs_length ts]

theorem filterMap_id_length : ∀ (l : List (Option ℕ)),
    (∀ r ∈ l, r.isSome) → (l.filterMap id).length = l.length
  | [], _ => rfl
  | r :: l, h => by
    rcases Option.isSome_iff_exists.mp (h r (List.mem_cons_self r l)) with ⟨v, rfl⟩
    simp only [List.filterMap_cons, id, List.length_cons]
    rw [filterMap_id_length l (fun x hx => h x (List.mem_cons_of_mem _ hx))]

theorem configWF_elapsed_succ_lt (kf : Engine) (hwf : ConfigWF kf)
    (he : kf.elapsedTime < 2 ^ kf.bitsTime) : kf.elapsedTime + 1 < 2 ^ 64 := by
  obtain ⟨hS1, hS2, hM1, hM2, hC1, hC2, hT, -⟩ := hwf
  have hTle : kf.bitsTime ≤ 51 := by omega
  have h2 : (2 : ℕ) ^ kf.bitsTime ≤ 2 ^ 51 := Nat.pow_le_pow_right (by norm_num) hTle
  have h3 : (2 : ℕ) ^ 51 < 2 ^ 64 := by norm_num
  omega

/-- A run in which every call succeeds issues a strictly increasing list
of ids, each strictly above the id denoted by the starting state. -/
theorem run_success_strong : ∀ (ts : List Int) (kf : Engine),
    ConfigWF kf → kf.sequence ≤ kf.sequenceMask →
    kf.elapsedTime < 2 ^ kf.bitsTime →
    (∀ r ∈ (kf.nextIDs ts).1, r.isSome) →
    List.Pairwise (· < ·) ((kf.nextIDs ts).1.filterMap id) ∧
      ∀ w ∈ (kf.nextIDs ts).1.filterMap id,
        idVal kf kf.elapsedTime kf.sequence < w := by
  intro ts
  induction ts with
  | nil =>
    intro kf _ _ _ _
    exact ⟨List.Pairwise.nil, by intro w hw; simp [Engine.nextIDs] at hw⟩
  | cons t ts ih =>
    intro kf hwf hs he hall
    have hmask : kf.sequenceMask = 2 ^ kf.bitsSequence - 1 := hwf.2.2.2.2.2.2.2.1
    have hwf1 : ConfigWF ((kf.nextID t).1) := nextID_configWF kf t hwf
    have hmask1 : ((kf.nextID t).1).sequenceMask = 2 ^ ((kf.nextID t).1).bitsSequence - 1 :=
      hwf1.2.2.2.2.2.2.2.1
    have hhead : ((kf.nextID t).2).isSome := by
      apply hall
      rw [nextIDs_cons]
      exact List.mem_cons_self _ _
    rcases Option.isSome_iff_exists.mp hhead with ⟨v, hv⟩
    have hallr : ∀ r ∈ (((kf.nextID t).1).nextIDs ts).1, r.isSome := by
      intro r hr
      apply hall
      rw [nextIDs_cons]
      exact List.mem_cons_of_mem _ hr
    have hs1 : ((kf.nextID t).1).sequence ≤ ((kf.nextID t).1).sequenceMask := by
      rw [(nextID_config kf t).2.2.2.2.2.2.1]
      exact nextID_sequence_le kf t
    have he1 : ((kf.nextID t).1).elapsedTime < 2 ^ ((kf.nextID t).1).bitsTime := by
      rw [← toID_isSome_iff, ← nextID_snd, hv]
      rfl
    have hs1lt : ((kf.nextID t).1).sequence < 2 ^ ((kf.nextID t).1).bitsSequence := by
      have hp : 0 < (2 : ℕ) ^ ((kf.nextID t).1).bitsSequence := pow_pos (by norm_num) _
      rw [hmask1] at hs1
      omega
    have hslt : kf.sequence < 2 ^ kf.bitsSequence := by
      have hp : 0 < (2 : ℕ) ^ kf.bitsSequence := pow_pos (by norm_num) _
      rw [hmask] at hs
      omega
    have hvval : v = idVal kf ((kf.nextID t).1).elapsedTime ((kf.nextID t).1).sequence := by
      have := toID_of_lt ((kf.nextID t).1) hwf1 hs1lt he1
      rw [← nextID_snd, hv] at this
      rw [nextID_idVal] at this
      exact Option.some_injective _ this
    have hlex : StateLt kf ((kf.nextID t).1) :=
      nextID_stateLt kf t hmask hs (configWF_elapsed_succ_lt kf hwf he)
    have hlow : idVal kf kf.elapsedTime kf.sequence < v := by
      rw [hvval]
      exact idVal_lt_idVal kf hslt hlex
    obtain ⟨ihp, ihlow⟩ := ih ((kf.nextID t).1) hwf1 hs1 he1 hallr
    have ihlow' : ∀ w ∈ ((((kf.nextID t).1).nextIDs ts).1).filterMap id, v < w := by
      intro w hw
      have := ihlow w hw
      rw [nextID_idVal] at this
      rw [hvval]
      exact this
    rw [nextIDs_cons, hv]
    simp only [List.filterMap_cons, id]
    constructor
    · exact List.Pairwise.cons ihlow' ihp
    · intro w hw
      rcases List.mem_cons.mp hw with rfl | hw
      · exact hlow
      · exact lt_trans hlow (ihlow' w hw)

/-- A bounded run (no `uint64` wraparound of the stored tick possible)
issues strictly increasing successful ids; moreover once the stored tick
is at or beyond `2 ^ bitsTime`, no call of the run succeeds. -/
theorem run_bounds_strong : ∀ (ts : List Int) (kf : Engine),
    ConfigWF kf → kf.sequence ≤ kf.sequenceMask →
    kf.elapsedTime + ts.length < 2 ^ 64 →
    (∀ t ∈ ts, kf.currentElapsedTime t + ts.length < 2 ^ 64) →
    List.Pairwise (· < ·) ((kf.nextIDs ts).1.filterMap id) ∧
      (kf.elapsedTime < 2 ^ kf.bitsTime →
        ∀ w ∈ (kf.nextIDs ts).1.filterMap id,
          idVal kf kf.elapsedTime kf.sequence < w) ∧
      (2 ^ kf.bitsTime ≤ kf.elapsedTime → (kf.nextIDs ts).1.filterMap id = []) := by
  intro ts
  induction ts with
  | nil =>
    intro kf _ _ _ _
    refine ⟨List.Pairwise.nil, ?_, ?_⟩
    · intro _ w hw
      simp [Engine.nextIDs] at hw
    · intro _
      rfl
  | cons t ts ih =>
    intro kf hwf hs hB hC
    have hmask : kf.sequenceMask = 2 ^ kf.bitsSequence - 1 := hwf.2.2.2.2.2.2.2.1
    have henw : kf.elapsedTime + 1 < 2 ^ 64 := by
      have := List.length_cons t ts ▸ hB
      omega
    have hwf1 : ConfigWF ((kf.nextID t).1) := nextID_configWF kf t hwf
    have hbitsT : ((kf.nextID t).1).bitsTime = kf.bitsTime := (nextID_config kf t).2.2.1
    have hmono : kf.elapsedTime ≤ ((kf.nextID t).1).elapsedTime :=
      nextID_elapsed_ge kf t henw
    have hs1 : ((kf.nextID t).1).sequence ≤ ((kf.nextID t).1).sequenceMask := by
      rw [(nextID_config kf t).2.2.2.2.2.2.1]
      exact nextID_sequence_le kf t
    have hB1 : ((kf.nextID t).1).elapsedTime + ts.length < 2 ^ 64 := by
      have hle := nextID_elapsed_le kf t
      have hcur := hC t (List.mem_cons_self t ts)
      have hlen : (t :: ts).length = ts.length + 1 := List.length_cons t ts
      rw [hlen] at hB hcur
      rcases max_cases (kf.elapsedTime + 1) (kf.currentElapsedTime t) with ⟨hm, -⟩ | ⟨hm, -⟩ <;>
        omega
    have hC1 : ∀ t' ∈ ts, ((kf.nextID t).1).currentElapsedTime t' + ts.length < 2 ^ 64 := by
      intro t' ht'
      rw [nextID_currentElapsed]
      have := hC t' (List.mem_cons_of_mem t ht')
      have hlen : (t :: ts).length = ts.length + 1 := List.length_cons t ts
      omega
    obtain ⟨ihp, ihlow, ihnone⟩ := ih ((kf.nextID t).1) hwf1 hs1 hB1 hC1
    have hlex : StateLt kf ((kf.nextID t).1) := nextID_stateLt kf t hmask hs henw
    rcases hr : (kf.nextID t).2 with - | v
    · -- the head call failed: the post-state tick overflowed and the
      -- whole rest of the run fails as well
      have hover : 2 ^ ((kf.nextID t).1).bitsTime ≤ ((kf.nextID t).1).elapsedTime := by
        rw [← toID_none_iff, ← nextID_snd]
        exact hr
      have hrest : ((((kf.nextID t).1).nextIDs ts).1).filterMap id = [] := ihnone hover
      rw [nextIDs_cons, hr]
      simp only [List.filterMap_cons, id]
      rw [hrest]
      refine ⟨List.Pairwise.nil, ?_, ?_⟩
      · intro _ w hw
        simp at hw
      · intro _
        rfl
    · -- the head call succeeded
      have he1 : ((kf.nextID t).1).elapsedTime < 2 ^ ((kf.nextID t).1).bitsTime := by
        rw [← toID_isSome_iff, ← nextID_snd, hr]
        rfl
      have hmask1 : ((kf.nextID t).1).sequenceMask =
          2 ^ ((kf.nextID t).1).bitsSequence - 1 := hwf1.2.2.2.2.2.2.2.1
      have hs1lt : ((kf.nextID t).1).sequence < 2 ^ ((kf.nextID t).1).bitsSequence := by
        have hp : 0 < (2 : ℕ) ^ ((kf.nextID t).1).bitsSequence := pow_pos (by norm_num) _
        rw [hmask1] at hs1
        omega
      have hslt : kf.sequence < 2 ^ kf.bitsSequence := by
        have hp : 0 < (2 : ℕ) ^ kf.bitsSequence := pow_pos (by norm_num) _
        rw [hmask] at hs
        omega
      have hvval : v = idVal kf ((kf.nextID t).1).elapsedTime ((kf.nextID t).1).sequence := by
        have h2 := toID_of_lt ((kf.nextID t).1) hwf1 hs1lt he1
        rw [← nextID_snd, hr] at h2
        rw [nextID_idVal] at h2
        exact Option.some_injective _ h2
      have hlow : idVal kf kf.elapsedTime kf.sequence < v := by
        rw [hvval]
        exact idVal_lt_idVal kf hslt hlex
      have ihlow' : ∀ w ∈ ((((kf.nextID t).1).nextIDs ts).1).filterMap id, v < w := by
        intro w hw
        have h3 := ihlow he1 w hw
        rw [nextID_idVal] at h3
        rw [hvval]
        exact h3
      rw [nextIDs_cons, hr]
      simp only [List.filterMap_cons, id]
      refine ⟨List.Pairwise.cons ihlow' ihp, ?_, ?_⟩
      · intro _ w hw
        rcases List.mem_cons.mp hw with rfl | hw
        · exact hlow
        · exact lt_trans hlow (ihlow' w hw)
      · intro hoverflow
        exfalso
        rw [hbitsT] at he1
        omega

/-- Once the stored tick is at or beyond `2 ^ bitsTime`, a bounded run
returns no id at all. -/
theorem run_all_none : ∀ (ts : List Int) (kf : Engine),
    kf.elapsedTime + ts.length < 2 ^ 64 →
    (∀ t ∈ ts, kf.currentElapsedTime t + ts.length < 2 ^ 64) →
    2 ^ kf.bitsTime ≤ kf.elapsedTime →
    ∀ r ∈ (kf.nextIDs ts).1, r = none := by
  intro ts
  induction ts with
  | nil =>
    intro kf _ _ _ r hr
    simp [Engine.nextIDs] at hr
  | cons t ts ih =>
    intro kf hB hC hover
    have henw : kf.elapsedTime + 1 < 2 ^ 64 := by
      have := List.length_cons t ts ▸ hB
      omega
    have hbitsT : ((kf.nextID t).1).bitsTime = kf.bitsTime := (nextID_config kf t).2.2.1
    have hmono : kf.elapsedTime ≤ ((kf.nextID t).1).elapsedTime :=
      nextID_elapsed_ge kf t henw
    have hB1 : ((kf.nextID t).1).elapsedTime + ts.length < 2 ^ 64 := by
      have hle := nextID_elapsed_le kf t
      have hcur := hC t (List.mem_cons_self t ts)
      have hlen : (t :: ts).length = ts.length + 1 := List.length_cons t ts
      rw [hlen] at hB hcur
      rcases max_cases (kf.elapsedTime + 1) (kf.currentElapsedTime t) with ⟨hm, -⟩ | ⟨hm, -⟩ <;>
        omega
    have hC1 : ∀ t' ∈ ts, ((kf.nextID t).1).currentElapsedTime t' + ts.length < 2 ^ 64 := by
      intro t' ht'
      rw [nextID_currentElapsed]
      have := hC t' (List.mem_cons_of_mem t ht')
      have hlen : (t :: ts).length = ts.length + 1 := List.length_cons t ts
      omega
    have hover1 : 2 ^ ((kf.nextID t).1).bitsTime ≤ ((kf.nextID t).1).elapsedTime := by
      rw [hbitsT]
      omega
    intro r hr
    rw [nextIDs_cons] at hr
    rcases List.mem_cons.mp hr with rfl | hr
    · rw [nextID_snd, toID_none_iff]
      exact hover1
    · exact ih ((kf.nextID t).1) hB1 hC1 hover1 r hr

/-- In a bounded run, failure is terminal: a `none` result is followed
only by `none` results. -/
theorem run_terminal_pairwise : ∀ (ts : List Int) (kf : Engine),
    kf.elapsedTime + ts.length < 2 ^ 64 →
    (∀ t ∈ ts, kf.currentElapsedTime t + ts.length < 2 ^ 64) →
    List.Pairwise (fun a b => a = none → b = none) (kf.nextIDs ts).1 := by
  intro ts
  induction ts with
  | nil =>
    intro kf _ _
    exact List.Pairwise.nil
  | cons t ts ih =>
    intro kf hB hC
    have henw : kf.elapsedTime + 1 < 2 ^ 64 := by
      have := List.length_cons t ts ▸ hB
      omega
    have hbitsT : ((kf.nextID t).1).bitsTime = kf.bitsTime := (nextID_config kf t).2.2.1
    have hB1 : ((kf.nextID t).1).elapsedTime + ts.length < 2 ^ 64 := by
      have hle := nextID_elapsed_le kf t
      have hcur := hC t (List.mem_cons_self t ts)
      have hlen : (t :: ts).length = ts.length + 1 := List.length_cons t ts
      rw [hlen] at hB hcur
      rcases max_cases (kf.elapsedTime + 1) (kf.currentElapsedTime t) with ⟨hm, -⟩ | ⟨hm, -⟩ <;>
        omega
    have hC1 : ∀ t' ∈ ts, ((kf.nextID t).1).currentElapsedTime t' + ts.length < 2 ^ 64 := by
      intro t' ht'
      rw [nextID_currentElapsed]
      have := hC t' (List.mem_cons_of_mem t ht')
      have hlen : (t :: ts).length = ts.length + 1 := List.length_cons t ts
      omega
    rw [nextIDs_cons]
    refine List.Pairwise.cons ?_ (ih ((kf.nextID t).1) hB1 hC1)
    intro r hr hnone
    have hover : 2 ^ ((kf.nextID t).1).bitsTime ≤ ((kf.nextID t).1).elapsedTime := by
      rw [← toID_none_iff, ← nextID_snd]
      exact hnone
    exact run_all_none ts ((kf.nextID t).1) hB1 hC1 hover r hr

/-- A call of a run returns the over-time-limit failure exactly when the
engine state left behind by that call has an overflowed elapsed tick. -/
theorem run_result_iff_state : ∀ (ts : List Int) (kf : Engine),
    ∀ p ∈ ((kf.nextIDs ts).1).zip (kf.runStates ts),
      (p.1 = none ↔ 2 ^ kf.bitsTime ≤ p.2.elapsedTime) := by
  intro ts
  induction ts with
  | nil =>
    intro kf p hp
    simp [Engine.nextIDs, Engine.runStates] at hp
  | cons t ts ih =>
    intro kf p hp
    have hbitsT : ((kf.nextID t).1).bitsTime = kf.bitsTime := (nextID_config kf t).2.2.1
    rw [nextIDs_cons, show kf.runStates (t :: ts) =
      (kf.nextID t).1 :: ((kf.nextID t).1).runStates ts from rfl, List.zip_cons_cons] at hp
    rcases List.mem_cons.mp hp with rfl | hp
    · rw [nextID_snd, toID_none_iff, hbitsT]
    · rw [← hbitsT]
      exact ih ((kf.nextID t).1) p hp

/-! ### The claims -/

/-- C4 (code bug witnessed at the failing input): the round trip
`Decode(Encode(x)) = x` fails for the 64-character codec at `x = 0`:
`Encode(0)` is the literal string `"0"`, but in the base-64 alphabet the
character `0` has index 52, so decoding returns 52, not 0.  The
62-character codec (whose alphabet has `0` at index 0) round-trips 0
correctly. -/
theorem base64_roundtrip_fails_at_zero :
    base64Encode 0 = ['0'] ∧
    base64Decode (base64Encode 0) = some 52 ∧
    base62Decode (base62Encode 0) = some 0 := by
  refine ⟨rfl, ?_, ?_⟩ <;> decide

set_option maxRecDepth 10000 in
/-- C8 (code bug witnessed at the failing input): `Validate` accepts a
`TimeUnit` of zero, but `newWithSettings` stores the zero verbatim
(`timeUnit = settings.TimeUnit.Nanoseconds()` with no defaulting), so
the constructed engine's time unit is 0, not the 10 ms default — and in
Go `toInternalTime` then divides by this zero divisor (a runtime panic)
already while computing `startTime` during construction. -/
theorem timeUnit_zero_not_defaulted :
    zeroUnitSettings.validate 1735689600000000000 = none ∧
    newWithSettings zeroUnitSettings 1735689600000000000 (some 0) (some 0) =
      some zeroUnitEngine ∧
    zeroUnitEngine.timeUnit = 0 ∧
    zeroUnitEngine.timeUnit ≠ defaultSettings.timeUnit := by
  refine ⟨by decide, by decide, rfl, by decide⟩

set_option maxRecDepth 10000 in
/-- C9: engine construction performs no range check on the provider
results: after validation passes, any integer pair — negative or at or
above `2 ^ bits` — is stored verbatim; and an out-of-range value is then
OR-ed into every issued id where its bits overlap the neighbouring
field: with the default layout a machine id of `8192 = 2 ^ 13` makes the
first issued id decode to cluster 1 (the stored cluster id is 0) and
machine 0. -/
theorem construction_stores_any_provider_values :
    (∀ (s : Settings) (now cl mc : Int), s.validate now = none →
      ∃ kf, newWithSettings s now (some cl) (some mc) = some kf ∧
        kf.clusterId = cl ∧ kf.machineId = mc) ∧
    (newWithSettings defaultSettings 1735689600000000000 (some 0) (some 8192) =
        some overlapEngine ∧
      overlapEngine.machineId = 8192 ∧
      (2 : Int) ^ overlapEngine.bitsMachine ≤ overlapEngine.machineId ∧
      overlapEngine.toID = some 8192 ∧
      overlapEngine.clusterId = 0 ∧
      overlapEngine.clusterPart 8192 = 1 ∧
      overlapEngine.machinePart 8192 = 0) := by
  constructor
  · intro s now cl mc hv
    have h : newWithSettings s now (some cl) (some mc) =
        some
          { machineId := mc
            clusterId := cl
            bitsTime := (64 - s.bitsCluster - s.bitsMachine - s.bitsSequence).toNat
            bitsCluster := s.bitsCluster.toNat
            bitsMachine := s.bitsMachine.toNat
            bitsSequence := s.bitsSequence.toNat
            sequenceMask := 2 ^ s.bitsSequence.toNat - 1
            timeUnit := s.timeUnit
            startTime := toInternalTime s.timeUnit s.epochTime
            elapsedTime := 0
            sequence := 0 } := by
      unfold newWithSettings
      rw [hv]
      rfl
    exact ⟨_, h, rfl, rfl⟩
  · exact ⟨by decide, rfl, by decide, by decide, rfl, by decide, by decide⟩

/-- C9 witness: a concrete application — a negative cluster id and a
huge machine id are both accepted and stored verbatim. -/
theorem construction_stores_any_provider_values_witness :
    ∃ kf, newWithSettings cexSettings 1000000 (some (-3)) (some 99999) = some kf ∧
      kf.clusterId = -3 ∧ kf.machineId = 99999 :=
  construction_stores_any_provider_values.1 cexSettings 1000000 (-3) 99999 (by decide)

set_option maxRecDepth 10000 in
/-- C1 counterexample: a validly constructed engine
(`newWithSettings cexSettings … = some cexEngine`) driven by a strictly
increasing injected clock (nanoseconds 0, 1, …, 1025, all before the
configured epoch, so `currentElapsedTime` underflows to `2 ^ 64 - 1`)
produces exactly two successful ids in 1026 sequential `NextID` calls,
and they are both 0 — the second successful id is not strictly greater
than the first, refuting the claim as stated. -/
theorem nextID_monotonic_counterexample :
    newWithSettings cexSettings 1000000 (some 0) (some 0) = some cexEngine ∧
    List.Pairwise (· < ·) (cexClock 1026) ∧
    ((cexEngine.nextIDs (cexClock 1026)).1.filterMap id) = [0, 0] ∧
    ¬ List.Pairwise (· < ·) ((cexEngine.nextIDs (cexClock 1026)).1.filterMap id) := by
  have h3 : ((cexEngine.nextIDs (cexClock 1026)).1.filterMap id) = [0, 0] := by decide
  refine ⟨by decide, ?_, h3, ?_⟩
  · unfold cexClock
    rw [List.pairwise_map]
    exact (List.pairwise_lt_range 1026).imp (fun h => Int.ofNat_lt.mpr h)
  · rw [h3]
    decide

/-- C1 (amended): under a monotonically advancing clock, and provided
the run cannot wrap the `uint64` stored tick (every clock-derived
current tick, and the starting tick, stays below `2 ^ 64` minus the run
length — in particular whenever the clock never reads before the
epoch), every successful `NextID` call returns an id strictly greater
than the id of every earlier successful call. -/
theorem nextID_monotonic_amended (kf : Engine) (ts : List Int)
    (hwf : ConfigWF kf) (hseq : kf.sequence ≤ kf.sequenceMask)
    (hmono : List.Pairwise (· ≤ ·) ts)
    (hB : kf.elapsedTime + ts.length < 2 ^ 64)
    (hC : ∀ t ∈ ts, kf.currentElapsedTime t + ts.length < 2 ^ 64) :
    List.Pairwise (· < ·) ((kf.nextIDs ts).1.filterMap id) :=
  (run_bounds_strong ts kf hwf hseq hB hC).1

/-- C1 witness: three calls under an advancing post-epoch clock yield
three strictly increasing ids. -/
theorem nextID_monotonic_amended_witness :
    List.Pairwise (· < ·) ((cexEngine.nextIDs demoClock).1.filterMap id) := by
  refine nextID_monotonic_amended cexEngine demoClock ?_ ?_ ?_ ?_ ?_ <;> decide

set_option maxRecDepth 10000 in
/-- C3 counterexample: on the validly constructed `cexEngine` driven by
a clock reading before the epoch (underflowed current tick
`2 ^ 64 - 1`), the first of 513 sequential `NextID` calls returns the
over-time-limit failure, yet one of the remaining calls on the same
instance succeeds, returning id 0 (the stored tick wrapped `2 ^ 64`
back to 0 once the 512-value sequence space was exhausted) — so the
condition is not terminal as stated. -/
theorem overTimeLimit_terminal_counterexample :
    newWithSettings cexSettings 1000000 (some 0) (some 0) = some cexEngine ∧
    ((cexEngine.nextIDs (cexClock 513)).1).head? = some none ∧
    (cexEngine.nextIDs (cexClock 513)).1.filterMap id = [0] ∧
    ((cexEngine.nextIDs (cexClock 513)).1).length = 513 := by
  refine ⟨by decide, by decide, by decide, by decide⟩

/-- C3 (amended): a `NextID` call returns the over-time-limit failure
(and no id) exactly when the stored elapsed tick after that call's
transition is at least `2 ^ bitsTime`; and provided the run cannot wrap
the `uint64` stored tick (starting tick and every clock-derived current
tick below `2 ^ 64` minus the run length), the condition is terminal:
a failing call is followed only by failing calls. -/
theorem overTimeLimit_iff_and_terminal (kf : Engine) (ts : List Int)
    (hB : kf.elapsedTime + ts.length < 2 ^ 64)
    (hC : ∀ t ∈ ts, kf.currentElapsedTime t + ts.length < 2 ^ 64) :
    (∀ p ∈ ((kf.nextIDs ts).1).zip (kf.runStates ts),
        (p.1 = none ↔ 2 ^ kf.bitsTime ≤ p.2.elapsedTime)) ∧
    List.Pairwise (fun a b => a = none → b = none) (kf.nextIDs ts).1 :=
  ⟨run_result_iff_state ts kf, run_terminal_pairwise ts kf hB hC⟩

/-- C3 witness: two calls on an engine whose tick just reached the
limit: both fail, the failure matches the overflowed post-state, and
the terminal property holds for the run. -/
theorem overTimeLimit_iff_and_terminal_witness :
    (∀ p ∈ ((overEngine.nextIDs [2000000, 2000001]).1).zip
        (overEngine.runStates [2000000, 2000001]),
      (p.1 = none ↔ 2 ^ overEngine.bitsTime ≤ p.2.elapsedTime)) ∧
    List.Pairwise (fun a b => a = none → b = none)
      (overEngine.nextIDs [2000000, 2000001]).1 :=
  overTimeLimit_iff_and_terminal overEngine [2000000, 2000001] (by decide) (by decide)

/-- C10: modelling the mutex by the fact that each `NextID` call is one
atomic step, any serialized interleaving `ts` of `C` callers issuing
`perCaller` calls each over one shared engine in which every call
succeeds yields `C * perCaller` ids that are pairwise distinct and
strictly increasing in serialization order — hence their sorted merge
is strictly increasing, duplicate-free, and has exactly `C * perCaller`
elements. -/
theorem concurrent_merge_strictly_increasing (callers perCaller : ℕ)
    (ts : List Int) (kf : Engine)
    (hwf : ConfigWF kf) (hseq : kf.sequence ≤ kf.sequenceMask)
    (he : kf.elapsedTime < 2 ^ kf.bitsTime)
    (hlen : ts.length = callers * perCaller)
    (hall : ∀ r ∈ (kf.nextIDs ts).1, r.isSome) :
    ((kf.nextIDs ts).1.filterMap id).length = callers * perCaller ∧
    List.Pairwise (· < ·) ((kf.nextIDs ts).1.filterMap id) := by
  constructor
  · rw [filterMap_id_length _ hall, nextIDs_length, hlen]
  · exact (run_success_strong ts kf hwf hseq he hall).1

/-- C10 witness: two callers with two calls each, serialized into four
atomic calls, all successful: four strictly increasing ids. -/
theorem concurrent_merge_strictly_increasing_witness :
    ((cexEngine.nextIDs [2000000, 2000001, 2000002, 3000000]).1.filterMap id).length =
        2 * 2 ∧
    List.Pairwise (· < ·)
      ((cexEngine.nextIDs [2000000, 2000001, 2000002, 3000000]).1.filterMap id) :=
  concurrent_merge_strictly_increasing 2 2 [2000000, 2000001, 2000002, 3000000]
    cexEngine (by decide) (by decide) (by decide) (by decide) (by decide)

/-- C6: `Validate` returns nil exactly when every rule holds —
sequence bits in [8,30], machine bits in [3,16], cluster bits in [2,8],
time unit zero or at least 1 ms, epoch not after now, derived time
width at least the floor (30) — and, rule for rule in the fixed order
sequence, machine, cluster, time unit, epoch, derived width, the first
violated rule determines the (distinct) error value returned. -/
theorem validate_fixed_order (s : Settings) (now : Int) :
    s.validate now = claimValidate s now ∧
    (s.validate now = none ↔
      ((8 ≤ s.bitsSequence ∧ s.bitsSequence ≤ 30) ∧
       (3 ≤ s.bitsMachine ∧ s.bitsMachine ≤ 16) ∧
       (2 ≤ s.bitsCluster ∧ s.bitsCluster ≤ 8) ∧
       (s.timeUnit = 0 ∨ 1000000 ≤ s.timeUnit) ∧
       s.epochTime ≤ now ∧
       30 ≤ 64 - s.bitsSequence - s.bitsMachine - s.bitsCluster)) := by
  unfold Settings.validate claimValidate MinSequenceBits MaxSequenceBits
    MinMachineBits MaxMachineBits MinClusterBits MaxClusterBits MinTimeBits
    millisecondNs
  by_cases h1 : s.bitsSequence < 8 ∨ 30 < s.bitsSequence
  · rw [if_pos h1, if_pos (show ¬(8 ≤ s.bitsSequence ∧ s.bitsSequence ≤ 30) by omega)]
    exact ⟨rfl, by simp; omega⟩
  · rw [if_neg h1, if_neg (show ¬¬(8 ≤ s.bitsSequence ∧ s.bitsSequence ≤ 30) by omega)]
    by_cases h2 : s.bitsMachine < 3 ∨ 16 < s.bitsMachine
    · rw [if_pos h2, if_pos (show ¬(3 ≤ s.bitsMachine ∧ s.bitsMachine ≤ 16) by omega)]
      exact ⟨rfl, by simp; omega⟩
    · rw [if_neg h2, if_neg (show ¬¬(3 ≤ s.bitsMachine ∧ s.bitsMachine ≤ 16) by omega)]
      by_cases h3 : s.bitsCluster < 2 ∨ 8 < s.bitsCluster
      · rw [if_pos h3, if_pos (show ¬(2 ≤ s.bitsCluster ∧ s.bitsCluster ≤ 8) by omega)]
        exact ⟨rfl, by simp; omega⟩
      · rw [if_neg h3, if_neg (show ¬¬(2 ≤ s.bitsCluster ∧ s.bitsCluster ≤ 8) by omega)]
        by_cases h4 : s.timeUnit < 0 ∨ (0 < s.timeUnit ∧ s.timeUnit < 1000000)
        · rw [if_pos h4, if_pos (show ¬(s.timeUnit = 0 ∨ 1000000 ≤ s.timeUnit) by omega)]
          exact ⟨rfl, by simp; omega⟩
        · rw [if_neg h4, if_neg (show ¬¬(s.timeUnit = 0 ∨ 1000000 ≤ s.timeUnit) by omega)]
          by_cases h5 : now < s.epochTime
          · rw [if_pos h5, if_pos (show ¬(s.epochTime ≤ now) by omega)]
            exact ⟨rfl, by simp; omega⟩
          · rw [if_neg h5, if_neg (show ¬¬(s.epochTime ≤ now) by omega)]
            by_cases h6 : 64 - s.bitsCluster - s.bitsMachine - s.bitsSequence < 30
            · rw [if_pos h6, if_pos (show
                ¬(30 ≤ 64 - s.bitsSequence - s.bitsMachine - s.bitsCluster) by omega)]
              exact ⟨rfl, by simp; omega⟩
            · rw [if_neg h6, if_neg (show
                ¬¬(30 ≤ 64 - s.bitsSequence - s.bitsMachine - s.bitsCluster) by omega)]
              exact ⟨rfl, by simp; omega⟩

/-- C5: on a validly constructed engine, for any time whose derived
internal tick is at or after the start tick with elapsed tick below
`2 ^ bitsTime`, and any in-range sequence, machine id and cluster id,
`Compose` succeeds with the packed value, and `Decompose` of that
value returns exactly the derived elapsed tick, sequence, machine id
and cluster id as the four fields. -/
theorem compose_decompose_roundtrip (kf : Engine) (t seq mc cl : Int)
    (hwf : ConfigWF kf)
    (hstart : kf.startTime ≤ toInternalTime kf.timeUnit t)
    (helap : toInternalTime kf.timeUnit t - kf.startTime < 2 ^ kf.bitsTime)
    (hseq0 : 0 ≤ seq) (hseqB : seq < (2 : Int) ^ kf.bitsSequence)
    (hmc0 : 0 ≤ mc) (hmcB : mc < (2 : Int) ^ kf.bitsMachine)
    (hcl0 : 0 ≤ cl) (hclB : cl < (2 : Int) ^ kf.bitsCluster) :
    kf.compose t seq mc cl =
      .ok (idVal { kf with clusterId := cl, machineId := mc }
        (toInternalTime kf.timeUnit t - kf.startTime) seq.toNat) ∧
    kf.decompose (idVal { kf with clusterId := cl, machineId := mc }
        (toInternalTime kf.timeUnit t - kf.startTime) seq.toNat) =
      ⟨toInternalTime kf.timeUnit t - kf.startTime, seq.toNat, mc.toNat, cl.toNat⟩ := by
  obtain ⟨hS1, hS2, hM1, hM2, hC1, hC2, hT, hmask, -, -, -, -, hst⟩ := hwf
  have hwf2 : ConfigWF { kf with clusterId := cl, machineId := mc } :=
    ⟨hS1, hS2, hM1, hM2, hC1, hC2, hT, hmask, hcl0, hclB, hmc0, hmcB, hst⟩
  have hseqN : seq.toNat < 2 ^ kf.bitsSequence := toNat_lt_pow hseqB
  have hseq64 : u64 seq = seq.toNat :=
    u64_eq_toNat hseq0 (lt_of_lt_of_le hseqB
      (pow_le_pow_right₀ (by norm_num) (by omega)))
  set elap := toInternalTime kf.timeUnit t - kf.startTime with helapdef
  set kfc : Engine := { kf with clusterId := cl, machineId := mc } with hkfc
  have hwfe : ConfigWF { kfc with elapsedTime := elap, sequence := seq.toNat } :=
    ⟨hS1, hS2, hM1, hM2, hC1, hC2, hT, hmask, hcl0, hclB, hmc0, hmcB, hst⟩
  constructor
  · -- Compose succeeds and packs the value
    have h3 : ({ kfc with elapsedTime := elap, sequence := seq.toNat } : Engine).toID =
        some (idVal kfc elap seq.toNat) :=
      toID_of_lt { kfc with elapsedTime := elap, sequence := seq.toNat } hwfe hseqN helap
    have h4 : ({ kfc with elapsedTime := elap, sequence := seq.toNat } : Engine).toID =
        some ((elap <<< (kf.bitsSequence + kf.bitsCluster + kf.bitsMachine)) % 2 ^ 64 |||
          (seq.toNat <<< (kf.bitsMachine + kf.bitsCluster)) % 2 ^ 64 |||
          (u64 cl <<< kf.bitsMachine) % 2 ^ 64 |||
          u64 mc) := by
      unfold Engine.toID
      rw [show ({ kfc with elapsedTime := elap, sequence := seq.toNat } : Engine).bitsTime =
        kf.bitsTime from rfl,
        show ({ kfc with elapsedTime := elap, sequence := seq.toNat } : Engine).elapsedTime =
        elap from rfl]
      rw [if_neg (show ¬ 2 ^ kf.bitsTime ≤ elap by omega)]
    have h5 := Option.some_injective _ (h4.symm.trans h3)
    unfold Engine.compose
    rw [if_neg (by omega)]
    rw [if_neg (by omega)]
    rw [if_neg (by omega)]
    rw [if_neg (by omega)]
    rw [if_neg (by omega)]
    rw [show kf.bitsSequence + kf.bitsMachine + kf.bitsCluster =
      kf.bitsSequence + kf.bitsCluster + kf.bitsMachine by omega, hseq64]
    rw [h5]
  · exact decompose_idVal kfc elap seq.toNat
      ⟨hS1, hS2, hM1, hM2, hC1, hC2, hT, hmask, hcl0, hclB, hmc0, hmcB, hst⟩ hseqN

/-- C5 witness: the spec's §8 scenario — `Compose(T0+42 ms, 509, 8187,
6)` on the default layout with 1 ms ticks, decomposed back to
elapsed 42 and the same three values. -/
theorem compose_decompose_roundtrip_witness :
    demoEngine.compose 42000000 509 8187 6 =
      .ok (idVal { demoEngine with clusterId := 6, machineId := 8187 } 42 509) ∧
    demoEngine.decompose
        (idVal { demoEngine with clusterId := 6, machineId := 8187 } 42 509) =
      ⟨42, 509, 8187, 6⟩ := by
  have h := compose_decompose_roundtrip demoEngine 42000000 509 8187 6
    (by decide) (by decide) (by decide) (by decide) (by decide) (by decide)
    (by decide) (by decide) (by decide)
  exact h

/-- C7: `Compose` fails exactly when one of its preconditions fails,
with the matching error kind — the range error when the time is before
the epoch, the fatal time-limit error when the derived elapsed tick
reaches `2 ^ bitsTime`, and a dimension-specific range error for an
out-of-range sequence, cluster id or machine id (when several dimensions
are out of range the one checked first in source order is reported) —
and on success it packs the four fields exactly as the engine's own
`toID` packing does. -/
theorem compose_error_spec (kf : Engine) (t seq mc cl : Int) (hwf : ConfigWF kf) :
    (kf.compose t seq mc cl = .error .startTimeAhead ↔
      toInternalTime kf.timeUnit t < kf.startTime) ∧
    (kf.compose t seq mc cl = .error .overTimeLimit ↔
      (kf.startTime ≤ toInternalTime kf.timeUnit t ∧
        2 ^ kf.bitsTime ≤ toInternalTime kf.timeUnit t - kf.startTime)) ∧
    (kf.compose t seq mc cl = .error .invalidSequence →
      (seq < 0 ∨ (2 : Int) ^ kf.bitsSequence ≤ seq)) ∧
    (kf.compose t seq mc cl = .error .invalidClusterID →
      (cl < 0 ∨ (2 : Int) ^ kf.bitsCluster ≤ cl)) ∧
    (kf.compose t seq mc cl = .error .invalidMachineID →
      (mc < 0 ∨ (2 : Int) ^ kf.bitsMachine ≤ mc)) ∧
    ((∃ v, kf.compose t seq mc cl = .ok v) ↔
      (kf.startTime ≤ toInternalTime kf.timeUnit t ∧
       toInternalTime kf.timeUnit t - kf.startTime < 2 ^ kf.bitsTime ∧
       0 ≤ seq ∧ seq < (2 : Int) ^ kf.bitsSequence ∧
       0 ≤ mc ∧ mc < (2 : Int) ^ kf.bitsMachine ∧
       0 ≤ cl ∧ cl < (2 : Int) ^ kf.bitsCluster)) ∧
    (∀ v, kf.compose t seq mc cl = .ok v →
      ({ kf with clusterId := cl, machineId := mc, elapsedTime := toInternalTime kf.timeUnit t - kf.startTime, sequence := seq.toNat } : Engine).toID = some v) := by
  obtain ⟨hS1, hS2, hM1, hM2, hC1, hC2, hT, hmask, -, -, -, -, hst⟩ := hwf
  simp only [Engine.compose]
  split_ifs with h1 h2 h3 h4 h5
  · -- time before the epoch
    refine ⟨by simp [h1], ?_, ?_, ?_, ?_, ?_, ?_⟩
    · constructor
      · intro h
        simp at h
      · rintro ⟨ha, -⟩
        omega
    · intro h
      simp at h
    · intro h
      simp at h
    · intro h
      simp at h
    · constructor
      · rintro ⟨v, hv⟩
        simp at hv
      · rintro ⟨ha, -⟩
        omega
    · intro v hv
      simp at hv
  · -- elapsed tick at or beyond the limit
    refine ⟨?_, ?_, ?_, ?_, ?_, ?_, ?_⟩
    · constructor
      · intro h
        simp at h
      · intro h
        omega
    · constructor
      · intro _
        exact ⟨by omega, h2⟩
      · intro _
        rfl
    · intro h
      simp at h
    · intro h
      simp at h
    · intro h
      simp at h
    · constructor
      · rintro ⟨v, hv⟩
        simp at hv
      · rintro ⟨-, hb, -⟩
        omega
    · intro v hv
      simp at hv
  · -- sequence out of range
    refine ⟨?_, ?_, fun _ => h3, ?_, ?_, ?_, ?_⟩
    · constructor
      · intro h
        simp at h
      · intro h
        omega
    · constructor
      · intro h
        simp at h
      · rintro ⟨-, hb⟩
        omega
    · intro h
      simp at h
    · intro h
      simp at h
    · constructor
      · rintro ⟨v, hv⟩
        simp at hv
      · rintro ⟨-, -, hs0, hsB, -⟩
        omega
    · intro v hv
      simp at hv
  · -- cluster id out of range
    refine ⟨?_, ?_, ?_, fun _ => h4, ?_, ?_, ?_⟩
    · constructor
      · intro h
        simp at h
      · intro h
        omega
    · constructor
      · intro h
        simp at h
      · rintro ⟨-, hb⟩
        omega
    · intro h
      simp at h
    · intro h
      simp at h
    · constructor
      · rintro ⟨v, hv⟩
        simp at hv
      · rintro ⟨-, -, -, -, -, -, hc0, hcB⟩
        omega
    · intro v hv
      simp at hv
  · -- machine id out of range
    refine ⟨?_, ?_, ?_, ?_, fun _ => h5, ?_, ?_⟩
    · constructor
      · intro h
        simp at h
      · intro h
        omega
    · constructor
      · intro h
        simp at h
      · rintro ⟨-, hb⟩
        omega
    · intro h
      simp at h
    · intro h
      simp at h
    · constructor
      · rintro ⟨v, hv⟩
        simp at hv
      · rintro ⟨-, -, -, -, hm0, hmB, -⟩
        omega
    · intro v hv
      simp at hv
  · -- success
    refine ⟨?_, ?_, ?_, ?_, ?_, ?_, ?_⟩
    · constructor
      · intro h
        simp at h
      · intro h
        omega
    · constructor
      · intro h
        simp at h
      · rintro ⟨-, hb⟩
        omega
    · intro h
      simp at h
    · intro h
      simp at h
    · intro h
      simp at h
    · constructor
      · intro _
        exact ⟨by omega, by omega, by omega, by omega, by omega, by omega, by omega, by omega⟩
      · intro _
        exact ⟨_, rfl⟩
    · intro v hv
      have hv' := Except.ok.inj hv
      have hseq64 : u64 seq = seq.toNat :=
        u64_eq_toNat (by omega)
          (lt_of_lt_of_le (show seq < (2 : Int) ^ kf.bitsSequence by omega)
            (pow_le_pow_right₀ (by norm_num) (by omega)))
      unfold Engine.toID
      rw [show ({ kf with clusterId := cl, machineId := mc, elapsedTime := toInternalTime kf.timeUnit t - kf.startTime, sequence := seq.toNat } : Engine).bitsTime = kf.bitsTime from rfl]
      rw [show ({ kf with clusterId := cl, machineId := mc, elapsedTime := toInternalTime kf.timeUnit t - kf.startTime, sequence := seq.toNat } : Engine).elapsedTime = toInternalTime kf.timeUnit t - kf.startTime from rfl]
      rw [if_neg (show ¬ 2 ^ kf.bitsTime ≤ toInternalTime kf.timeUnit t - kf.startTime by omega)]
      rw [← hv']
      rw [show kf.bitsSequence + kf.bitsMachine + kf.bitsCluster =
        kf.bitsSequence + kf.bitsCluster + kf.bitsMachine by omega, hseq64]

/-- C7 witness: a concrete application on the §8 scenario engine and
arguments. -/
theorem compose_error_spec_witness :
    demoEngine.compose 42000000 509 8187 6 = .error .startTimeAhead ↔
      toInternalTime demoEngine.timeUnit 42000000 < demoEngine.startTime :=
  (compose_error_spec demoEngine 42000000 509 8187 6 (by decide)).1

/-- C2 counterexample: at the engine state that 512 sequential `NextID`
calls of `cexEngine` under the before-the-epoch clock leave behind
(stored tick `2 ^ 64 - 1`, sequence 511 — the state one call before the
wrap exhibited by the C3 run), the next call's sequence increment wraps
to 0 but the code's `uint64` tick increment wraps the stored tick to 0
instead of advancing it by exactly one to `2 ^ 64` — the call does not
perform the claimed transition. -/
theorem nextID_state_machine_counterexample :
    ((wrapEngine.nextID 0).1).elapsedTime = 0 ∧
    (specNextState wrapEngine (wrapEngine.currentElapsedTime 0)).elapsedTime = 2 ^ 64 ∧
    (wrapEngine.nextID 0).1 ≠ specNextState wrapEngine (wrapEngine.currentElapsedTime 0) := by
  refine ⟨by decide, by decide, by decide⟩

/-- C2 (amended): each `NextID` call performs exactly the specified
transition provided no machine-integer overflow interferes: the stored
tick is below `2 ^ 64 - 1`, the time unit is positive with
`(elapsedTime + 1) * timeUnit` below `2 ^ 63`, and the sleep-time clock
reading is non-negative —
a strictly greater clock-derived `current` is adopted with the sequence
reset to 0; otherwise (clock not past the stored tick, including a
backward clock) the sequence is incremented modulo `2 ^ sequenceBits`,
and on a wrap to 0 the stored tick advances by exactly one while the
caller sleeps for the remaining fraction of the current tick plus the
full ticks of overtime; the returned id (when one is returned) packs
the resulting (stored tick, sequence, cluster id, machine id). -/
theorem nextID_state_machine (kf : Engine) (now now₂ : Int) (hwf : ConfigWF kf)
    (he : kf.elapsedTime + 1 < 2 ^ 64)
    (hu : 0 < kf.timeUnit) (hn₂ : 0 ≤ now₂)
    (hprod : ((kf.elapsedTime : Int) + 1) * kf.timeUnit < 2 ^ 63) :
    (kf.nextID now).1 = specNextState kf (kf.currentElapsedTime now) ∧
    kf.nextIDSleep now now₂ = specSleep kf (kf.currentElapsedTime now) now₂ ∧
    (∀ v, (kf.nextID now).2 = some v →
      v = specPack (specNextState kf (kf.currentElapsedTime now))) := by
  have hmask : kf.sequenceMask = 2 ^ kf.bitsSequence - 1 := hwf.2.2.2.2.2.2.2.1
  have hand : (kf.sequence + 1) &&& kf.sequenceMask =
      (kf.sequence + 1) % 2 ^ kf.bitsSequence := by
    rw [hmask, Nat.and_pow_two_sub_one_eq_mod]
  have hA : (kf.nextID now).1 = specNextState kf (kf.currentElapsedTime now) := by
    rw [nextID_fst]
    unfold specNextState
    simp only [hand, Nat.mod_eq_of_lt he]
    split_ifs with h1 h2
    · rfl
    · rw [h2]
    · rfl
  refine ⟨hA, ?_, ?_⟩
  · -- the sleep duration
    unfold Engine.nextIDSleep specSleep
    simp only [hand]
    split_ifs with h1 h2
    · rfl
    · simp only [Nat.mod_eq_of_lt he]
      have hcur : kf.currentElapsedTime now ≤ kf.elapsedTime := Nat.le_of_not_lt h1
      have hsub : u64sub (kf.elapsedTime + 1) (kf.currentElapsedTime now) =
          kf.elapsedTime + 1 - kf.currentElapsedTime now :=
        u64sub_eq (by omega) (by omega)
      have hu1 : (1 : Int) ≤ kf.timeUnit := hu
      have h0e : (0 : Int) ≤ (kf.elapsedTime : Int) + 1 := by omega
      have he63 : ((kf.elapsedTime : Int) + 1) ≤
          ((kf.elapsedTime : Int) + 1) * kf.timeUnit :=
        le_mul_of_one_le_right h0e hu1
      have hlt63 : kf.elapsedTime + 1 - kf.currentElapsedTime now < 2 ^ 63 := by
        have : ((kf.elapsedTime : Int) + 1) < 2 ^ 63 := by omega
        omega
      rw [hsub, i64_eq hlt63]
      have hcast : ((kf.elapsedTime + 1 - kf.currentElapsedTime now : ℕ) : Int) =
          (kf.elapsedTime : Int) + 1 - (kf.currentElapsedTime now : Int) := by
        omega
      rw [hcast]
      have hovle : (kf.elapsedTime : Int) + 1 - (kf.currentElapsedTime now : Int) ≤
          (kf.elapsedTime : Int) + 1 := by
        omega
      have hmul : ((kf.elapsedTime : Int) + 1 - (kf.currentElapsedTime now : Int)) *
          kf.timeUnit ≤ ((kf.elapsedTime : Int) + 1) * kf.timeUnit :=
        mul_le_mul_of_nonneg_right hovle (le_of_lt hu)
      have hmul0 : 0 ≤ ((kf.elapsedTime : Int) + 1 - (kf.currentElapsedTime now : Int)) *
          kf.timeUnit := mul_nonneg (by omega) (le_of_lt hu)
      have hunit63 : kf.timeUnit < 2 ^ 63 := by
        have h9 : kf.timeUnit * 1 ≤ kf.timeUnit * ((kf.elapsedTime : Int) + 1) :=
          mul_le_mul_of_nonneg_left (by omega) (le_of_lt hu)
        have h10 : kf.timeUnit * ((kf.elapsedTime : Int) + 1) =
            ((kf.elapsedTime : Int) + 1) * kf.timeUnit := by ring
        omega
      have hmod : Int.tmod now₂ kf.timeUnit = now₂ % kf.timeUnit :=
        Int.tmod_eq_emod hn₂ (le_of_lt hu)
      have hmodlt : now₂ % kf.timeUnit < kf.timeUnit := Int.emod_lt_of_pos now₂ hu
      have hmod0 : 0 ≤ now₂ % kf.timeUnit := Int.emod_nonneg now₂ (ne_of_gt hu)
      rw [hmod]
      rw [show wrap64 (((kf.elapsedTime : Int) + 1 - (kf.currentElapsedTime now : Int)) *
            kf.timeUnit) =
          ((kf.elapsedTime : Int) + 1 - (kf.currentElapsedTime now : Int)) * kf.timeUnit
        from wrap64_eq (by omega) (by omega)]
      rw [show wrap64 (((kf.elapsedTime : Int) + 1 - (kf.currentElapsedTime now : Int)) *
            kf.timeUnit - now₂ % kf.timeUnit) =
          ((kf.elapsedTime : Int) + 1 - (kf.currentElapsedTime now : Int)) * kf.timeUnit -
            now₂ % kf.timeUnit
        from wrap64_eq (by omega) (by omega)]
      congr 1
      ring
    · rfl
  · -- the returned id packs the post-state quadruple
    intro v hv
    rw [nextID_snd, hA] at hv
    have hwfst : ConfigWF (specNextState kf (kf.currentElapsedTime now)) := by
      unfold specNextState
      split_ifs <;> exact hwf
    have hstseq : (specNextState kf (kf.currentElapsedTime now)).sequence <
        2 ^ (specNextState kf (kf.currentElapsedTime now)).bitsSequence := by
      have hp : 0 < (2 : ℕ) ^ kf.bitsSequence := pow_pos (by norm_num) _
      unfold specNextState
      split_ifs
      · exact hp
      · exact hp
      · exact Nat.mod_lt _ hp
    have hste : (specNextState kf (kf.currentElapsedTime now)).elapsedTime <
        2 ^ (specNextState kf (kf.currentElapsedTime now)).bitsTime := by
      rw [← toID_isSome_iff, hv]
      rfl
    have h6 := toID_of_lt _ hwfst hstseq hste
    rw [hv] at h6
    have h7 := Option.some_injective _ h6
    rw [specPack_eq_idVal]
    exact h7

/-- C2 witness: a concrete fresh-tick transition on `cexEngine`. -/
theorem nextID_state_machine_witness :
    (cexEngine.nextID 5000000).1 =
      specNextState cexEngine (cexEngine.currentElapsedTime 5000000) ∧
    cexEngine.nextIDSleep 5000000 5000000 =
      specSleep cexEngine (cexEngine.currentElapsedTime 5000000) 5000000 ∧
    (∀ v, (cexEngine.nextID 5000000).2 = some v →
      v = specPack (specNextState cexEngine (cexEngine.currentElapsedTime 5000000))) :=
  nextID_state_machine cexEngine 5000000 5000000 (by decide) (by decide)
    (by decide) (by decide) (by decide)

end Kubeflake
